import Mathlib

/-!
Verification of the `flatten_marker_output` tool (`src/main.rs`).

The development shallowly embeds the program's data model and operations:

* strings are modelled as `List Char` (`Str`);
* `extract_text_from_html` embeds the regex strategy of the source
  (`Regex::new("<[^>]*>")`, `replace_all(html, " ")`, then
  `split_whitespace().join(" ")`);
* `Block` mirrors the serde `Block` struct, `flatten_and_filter_blocks`
  its recursive flattening loop;
* filesystem paths are modelled as lists of components
  (mirroring `std::path::Path` component-wise operations), and the batch
  orchestrator `process_pdf_directory_with_structure` is embedded over an
  environment of filesystem oracles (glob results, `canonicalize`,
  `create_dir_all`, the per-file processors), returning the trace of
  performed actions next to the accumulated `UnprocessedFile` list.
-/

abbrev Str := List Char

def str (s : String) : Str := s.toList

/-- ASCII whitespace, the fragment of Rust `char::is_whitespace` exercised by
the tool's inputs (space, tab, line feed, vertical tab, form feed,
carriage return). -/
def isWs (c : Char) : Bool :=
  c = ' ' || c = '\t' || c = '\n' || c = '\x0b' || c = '\x0c' || c = '\r'

/-! ### Text extraction (`extract_text_from_html`, src/main.rs lines 442-451)

`Regex::new(r"<[^>]*>")` matches, leftmost first, a `<`, a maximal run of
non-`>` characters, and a closing `>`.  `replace_all` with `" "` therefore
replaces, scanning left to right, every span from a `<` to the first
following `>` by one space; a `<` with no later `>` starts no match, and
then no later character can start a match either. `stripAux` embeds this
scan: the `Bool` is true while inside a tag span. -/

def stripAux : Bool → Str → Str
  | _, [] => []
  | true, c :: rest => if c = '>' then stripAux false rest else stripAux true rest
  | false, c :: rest =>
    if c = '<' then
      (if rest.contains '>' then ' ' :: stripAux true rest else c :: rest)
    else
      c :: stripAux false rest

/-- The replacement `re.replace_all(html, " ")` for `re = <[^>]*>`. -/
def stripTags (html : Str) : Str := stripAux false html

/-- Helper for `splitWhitespace`: `acc` is the reversed partial word. -/
def wordsAux : Str → Str → List Str
  | [], acc => if acc.isEmpty then [] else [acc.reverse]
  | c :: rest, acc =>
    if isWs c then
      (if acc.isEmpty then wordsAux rest [] else acc.reverse :: wordsAux rest [])
    else
      wordsAux rest (c :: acc)

/-- Rust `str::split_whitespace`: the maximal whitespace-free nonempty
chunks, in order. -/
def splitWhitespace (s : Str) : List Str := wordsAux s []

/-- Rust `Vec::join(" ")`. -/
def joinSpace : List Str → Str
  | [] => []
  | [w] => w
  | w :: w2 :: rest => w ++ ' ' :: joinSpace (w2 :: rest)

/-- The function `extract_text_from_html` (src/main.rs lines 442-451): strip the tag
spans, then `split_whitespace().collect::<Vec<_>>().join(" ")`. -/
def extract_text_from_html (html : Str) : Str :=
  joinSpace (splitWhitespace (stripTags html))

/-! Spec-side normalization, modelled from the spec's words (§4.2 strategy 2):
"collapse runs of whitespace (including newlines) to single spaces and trim
leading/trailing whitespace". Used only to compare with the
`split_whitespace`/`join` implementation above. -/

/-- Modelled from the spec: replace each maximal nonempty whitespace run by
one space. -/
def collapseRuns : Str → Str
  | [] => []
  | [c] => [if isWs c then ' ' else c]
  | c1 :: c2 :: rest =>
    if isWs c1 && isWs c2 then collapseRuns (c2 :: rest)
    else (if isWs c1 then ' ' else c1) :: collapseRuns (c2 :: rest)

/-- Modelled from the spec: trim leading whitespace. -/
def trimStart (s : Str) : Str := s.dropWhile (fun c => isWs c)

/-- Modelled from the spec: trim trailing whitespace. -/
def trimEnd (s : Str) : Str := (s.reverse.dropWhile (fun c => isWs c)).reverse

/-- Modelled from the spec: collapse whitespace runs, then trim. -/
def specNormalize (s : Str) : Str := trimEnd (trimStart (collapseRuns s))

/-- The whitespace normalization the implementation applies after tag
stripping (`split_whitespace` then `join(" ")`). -/
def normWs (s : Str) : Str := joinSpace (splitWhitespace s)

/-- Contribution of the words after the first to a `join(" ")`: nothing
when there are none, otherwise a space and the joined remainder. -/
def joinTail : List Str → Str
  | [] => []
  | w :: ws => ' ' :: joinSpace (w :: ws)

/-! ### Block tree model (src/main.rs lines 44-85)

`serde_json::Value` for the `section_hierarchy` and `images` fields. -/

inductive JsonVal : Type where
  | null : JsonVal
  | bool (b : Bool) : JsonVal
  | num (x : Float) : JsonVal
  | string (s : Str) : JsonVal
  | arr (elems : List JsonVal) : JsonVal
  | obj (fields : List (Str × JsonVal)) : JsonVal

/-- The serde `Block` struct: `id`, `block_type`, `html`, `text` default to
empty strings; the remaining five fields are `Option`s. -/
inductive Block : Type where
  | mk (id : Str) (block_type : Str) (html : Str) (text : Str)
       (polygon : Option (List (List Float)))
       (bbox : Option (List Float))
       (children : Option (List Block))
       (section_hierarchy : Option JsonVal)
       (images : Option JsonVal) : Block

def Block.id : Block → Str
  | .mk i _ _ _ _ _ _ _ _ => i

def Block.block_type : Block → Str
  | .mk _ bt _ _ _ _ _ _ _ => bt

def Block.html : Block → Str
  | .mk _ _ h _ _ _ _ _ _ => h

def Block.text : Block → Str
  | .mk _ _ _ t _ _ _ _ _ => t

def Block.children : Block → Option (List Block)
  | .mk _ _ _ _ _ _ cs _ _ => cs

/-- The `Document` struct (src/main.rs lines 82-85). -/
structure Document : Type where
  children : List Block

/-- The `filtered_block` built at src/main.rs lines 423-433: keep `id`,
`block_type`, `html`, derive `text` from the html, null out the five
structural fields. -/
def recordOf (b : Block) : Block :=
  match b with
  | .mk i bt h _ _ _ _ _ _ =>
    .mk i bt h (extract_text_from_html h) none none none none none

/-- The engine `flatten_and_filter_blocks` (src/main.rs lines 403-440). A `Page` block
is not emitted but its children are flattened recursively; any other block
is emitted (with `recordOf`) unless its type is one of `PageHeader`,
`PageFooter`, `Picture`, `ListGroup`; children of non-`Page` blocks are
never visited. -/
def flatten_and_filter_blocks : List Block → List Block
  | [] => []
  | Block.mk i bt h t pg bb cs sh im :: rest =>
    if bt = str "Page" then
      (match cs with
       | some children => flatten_and_filter_blocks children
       | none => []) ++ flatten_and_filter_blocks rest
    else
      if bt ≠ str "PageHeader" ∧ bt ≠ str "PageFooter" ∧
         bt ≠ str "Picture" ∧ bt ≠ str "ListGroup" then
        recordOf (Block.mk i bt h t pg bb cs sh im) :: flatten_and_filter_blocks rest
      else
        flatten_and_filter_blocks rest

/-- The nodes of a block forest reachable by descending only through
`Page`-typed nodes, with `Page` nodes themselves removed, in pre-order.
These are exactly the nodes the engine considers for emission. -/
def pageReachable : List Block → List Block
  | [] => []
  | Block.mk i bt h t pg bb cs sh im :: rest =>
    if bt = str "Page" then
      (match cs with
       | some children => pageReachable children
       | none => []) ++ pageReachable rest
    else
      Block.mk i bt h t pg bb cs sh im :: pageReachable rest

/-- The four block types dropped by the `else` branch of the engine
(src/main.rs lines 415-418). -/
def isFilteredType (bt : Str) : Bool :=
  decide (bt = str "PageHeader") || decide (bt = str "PageFooter") ||
  decide (bt = str "Picture") || decide (bt = str "ListGroup")

/-! ### Filesystem paths

A path is its list of `std::path::Path` components ("/a/b" is
`[str "a", str "b"]`); component-wise operations (`join`, `parent`,
`starts_with`, `strip_prefix`) become list operations.  `file_name` is the
last component, except that `..` and `.` components are not file names
(Rust returns `None` for those). -/

abbrev FPath := List Str

/-- Rust `Path::to_string_lossy` for an absolute path: components joined by
slashes, with a leading slash. -/
def pathStr (p : FPath) : Str := p.flatMap (fun comp => '/' :: comp)

/-- Rust `Path::file_name`. -/
def rustFileName (p : FPath) : Option Str :=
  match p.getLast? with
  | none => none
  | some n => if n = str ".." ∨ n = str "." then none else some n

/-- Splits a reversed file name at its first `.`: returns the reversed
extension and the reversed stem. `none` when there is no dot. -/
def revSplitDot : Str → Option (Str × Str)
  | [] => none
  | c :: rest =>
    if c = '.' then some ([], rest)
    else (revSplitDot rest).map (fun pr => (c :: pr.1, pr.2))

/-- Rust `split_file_at_dot` stem part: the portion of a file name before
its final `.`, or the whole name when there is no `.` or the final `.` is
the leading character. -/
def rustFileStem (name : Str) : Str :=
  match revSplitDot name.reverse with
  | none => name
  | some (_, revStem) => if revStem = [] then name else revStem.reverse

/-- Rust `split_file_at_dot` extension part. -/
def rustExtension (name : Str) : Option Str :=
  match revSplitDot name.reverse with
  | none => none
  | some (revExt, revStem) => if revStem = [] then none else some revExt.reverse

/-- Rust `Path::file_stem` composed with `unwrap_or("output")` as in
src/main.rs lines 463-466 and 478-481. -/
def fileStemOrOutput (p : FPath) : Str :=
  match rustFileName p with
  | none => str "output"
  | some n => rustFileStem n

/-- The fallback `input_path.parent().unwrap_or_else(|| Path::new("."))`. -/
def parentOrDot (p : FPath) : FPath :=
  match p with
  | [] => [str "."]
  | _ => p.dropLast

/-- The resolver `determine_output_path` (src/main.rs lines 453-488).  The
`fs::create_dir_all(dir_path)?` effect of the explicit-output-directory
branch is taken from the `createDirAll` oracle; on its failure the function
returns the error (the `?`).  Otherwise the returned path is
`{output_dir}/{stem}_processed.{ext}`, or the sibling
`{parent}/{stem}_processed.{ext}` when no output directory is given. -/
def determine_output_path (createDirAll : FPath → Except Str Unit)
    (input_path : FPath) (output_dir : Option FPath) (extension : Str) :
    Except Str FPath :=
  match output_dir with
  | some dir_path =>
    let file_name := fileStemOrOutput input_path
    let output_file_name := file_name ++ str "_processed." ++ extension
    match createDirAll dir_path with
    | Except.error e => Except.error e
    | Except.ok _ => Except.ok (dir_path ++ [output_file_name])
  | none =>
    let parent_dir := parentOrDot input_path
    let file_name := fileStemOrOutput input_path
    let output_file_name := file_name ++ str "_processed." ++ extension
    Except.ok (parent_dir ++ [output_file_name])

/-! ### Batch orchestrator (`process_pdf_directory_with_structure`,
src/main.rs lines 253-401)

The orchestrator's filesystem effects are drawn from a `BatchEnv` of
oracles: the three glob iterations (`**/*.pdf`, `**/*.json`, `**/*`) as
entry lists whose elements are `Ok` paths or glob iteration errors,
`canonicalize` results, `is_dir`, `create_dir_all` results, and the two
per-file processors (`process_pdf_file_with_output_path`,
`process_json_file_with_output_path`) abstracted by the `Result` they
return.  Next to the `Vec<UnprocessedFile>` of the source, the embedding
returns the trace of performed actions, so that "file was processed /
skipped" is expressible. -/

/-- Rust `str::contains` (substring test). -/
def strContains (hay needle : Str) : Bool :=
  match hay with
  | [] => needle.isEmpty
  | _ :: t => needle.isPrefixOf hay || strContains t needle

deriving instance DecidableEq for Except

/-- The `UnprocessedFile` struct (src/main.rs lines 88-92). -/
structure UnprocessedFile : Type where
  path : Str
  reason : Str
deriving DecidableEq

/-- Filesystem side effects the orchestrator performs, in order. -/
inductive BatchAction : Type where
  | createdDirs (dir : FPath)
  | processedPdf (input output : FPath)
  | processedJson (input output : FPath)
deriving DecidableEq

/-- Oracles for the filesystem behind one orchestrator run. -/
structure BatchEnv : Type where
  outputDir : FPath
  canonInputDir : Option FPath
  canon : FPath → Option FPath
  pdfEntries : List (Except Str FPath)
  jsonEntries : List (Except Str FPath)
  allEntries : List (Except Str FPath)
  isDir : FPath → Bool
  createDirAll : FPath → Except Str Unit
  processPdf : FPath → FPath → Except Str Unit
  processJson : FPath → FPath → Except Str Unit

/-- The `is_excluded_path` closure (src/main.rs lines 269-277): a path is
excluded when its canonicalization starts with `{input}/target` or
`{input}/.git`; when canonicalization fails, when its string form contains
`/target/` or `/.git/`. -/
def is_excluded_path (canon : FPath → Option FPath) (target_dir git_dir : FPath)
    (path : FPath) : Bool :=
  match canon path with
  | some canonical_path =>
    target_dir.isPrefixOf canonical_path || git_dir.isPrefixOf canonical_path
  | none =>
    strContains (pathStr path) (str "/target/") ||
      strContains (pathStr path) (str "/.git/")

/-- Rust `Path::strip_prefix`, component-wise. -/
def stripPrefixComponents (base p : FPath) : Option FPath :=
  if base.isPrefixOf p then some (p.drop base.length) else none

/-- Rust `Path::parent` of a nonempty path. -/
def parentOpt : FPath → Option FPath
  | [] => none
  | p => some p.dropLast

/-- Rust `path.extension()`. -/
def pathExtension (p : FPath) : Option Str :=
  match rustFileName p with
  | some n => rustExtension n
  | none => none

/-- The `*.pdf` loop (src/main.rs lines 281-315): skip excluded paths,
create the destination's parent directories (`?` on failure!), call the PDF
processor, record its error (if any) as an `UnprocessedFile`; a glob
iteration error is recorded against path "Unknown file". -/
def pdfLoop (outDir : FPath) (createDirAll : FPath → Except Str Unit)
    (processPdf : FPath → FPath → Except Str Unit)
    (cin : FPath) (excl : FPath → Bool) :
    List (Except Str FPath) → Except Str (List BatchAction × List UnprocessedFile)
  | [] => Except.ok ([], [])
  | Except.error e :: rest =>
    match pdfLoop outDir createDirAll processPdf cin excl rest with
    | Except.error e2 => Except.error e2
    | Except.ok (acts, unp) =>
      Except.ok (acts, ⟨str "Unknown file", str "Error reading file: " ++ e⟩ :: unp)
  | Except.ok path :: rest =>
    if excl path then pdfLoop outDir createDirAll processPdf cin excl rest
    else
      match stripPrefixComponents cin path with
      | none => pdfLoop outDir createDirAll processPdf cin excl rest
      | some relative_path =>
        let output_path := outDir ++ relative_path
        match (match parentOpt output_path with
               | some parent => createDirAll parent
               | none => Except.ok ()) with
        | Except.error e => Except.error e
        | Except.ok _ =>
          match pdfLoop outDir createDirAll processPdf cin excl rest with
          | Except.error e2 => Except.error e2
          | Except.ok (acts, unp) =>
            Except.ok
              ((match parentOpt output_path with
                | some parent => [BatchAction.createdDirs parent]
                | none => []) ++ BatchAction.processedPdf path output_path :: acts,
               match processPdf path output_path with
               | Except.ok _ => unp
               | Except.error e =>
                 ⟨pathStr path, str "Error processing PDF: " ++ e⟩ :: unp)

/-- The `*.json` loop (src/main.rs lines 319-356): as `pdfLoop`, but a path
whose string form contains `_processed` is skipped, the JSON processor is
called, and its error is recorded verbatim. -/
def jsonLoop (outDir : FPath) (createDirAll : FPath → Except Str Unit)
    (processJson : FPath → FPath → Except Str Unit)
    (cin : FPath) (excl : FPath → Bool) :
    List (Except Str FPath) → Except Str (List BatchAction × List UnprocessedFile)
  | [] => Except.ok ([], [])
  | Except.error e :: rest =>
    match jsonLoop outDir createDirAll processJson cin excl rest with
    | Except.error e2 => Except.error e2
    | Except.ok (acts, unp) =>
      Except.ok (acts, ⟨str "Unknown file", str "Error reading file: " ++ e⟩ :: unp)
  | Except.ok path :: rest =>
    if excl path then jsonLoop outDir createDirAll processJson cin excl rest
    else if strContains (pathStr path) (str "_processed") then
      jsonLoop outDir createDirAll processJson cin excl rest
    else
      match stripPrefixComponents cin path with
      | none => jsonLoop outDir createDirAll processJson cin excl rest
      | some relative_path =>
        let output_path := outDir ++ relative_path
        match (match parentOpt output_path with
               | some parent => createDirAll parent
               | none => Except.ok ()) with
        | Except.error e => Except.error e
        | Except.ok _ =>
          match jsonLoop outDir createDirAll processJson cin excl rest with
          | Except.error e2 => Except.error e2
          | Except.ok (acts, unp) =>
            Except.ok
              ((match parentOpt output_path with
                | some parent => [BatchAction.createdDirs parent]
                | none => []) ++ BatchAction.processedJson path output_path :: acts,
               match processJson path output_path with
               | Except.ok _ => unp
               | Except.error e => ⟨pathStr path, e⟩ :: unp)

/-- The catch-all `**/*` loop (src/main.rs lines 360-398): directories,
excluded paths, `.pdf`/`.json` files and paths containing `_processed` are
skipped; everything else is recorded as "Unsupported file type". -/
def allLoop (isDir : FPath → Bool) (excl : FPath → Bool) :
    List (Except Str FPath) → List UnprocessedFile
  | [] => []
  | Except.error e :: rest =>
    ⟨str "Unknown file", str "Error reading file: " ++ e⟩ :: allLoop isDir excl rest
  | Except.ok path :: rest =>
    if isDir path then allLoop isDir excl rest
    else if excl path then allLoop isDir excl rest
    else if (match pathExtension path with
             | some e => decide (e = str "pdf") || decide (e = str "json")
             | none => false) then allLoop isDir excl rest
    else if strContains (pathStr path) (str "_processed") then allLoop isDir excl rest
    else ⟨pathStr path, str "Unsupported file type"⟩ :: allLoop isDir excl rest

/-- The orchestrator `process_pdf_directory_with_structure` (src/main.rs lines 253-401):
canonicalize the input root (`?` on failure), run the three glob loops,
return the trace and the accumulated unprocessed-file records. -/
def process_pdf_directory_with_structure (env : BatchEnv) :
    Except Str (List BatchAction × List UnprocessedFile) :=
  match env.canonInputDir with
  | none => Except.error (str "canonicalize failed")
  | some canonical_input_dir =>
    let target_dir := canonical_input_dir ++ [str "target"]
    let git_dir := canonical_input_dir ++ [str ".git"]
    let excl := is_excluded_path env.canon target_dir git_dir
    match pdfLoop env.outputDir env.createDirAll env.processPdf
        canonical_input_dir excl env.pdfEntries with
    | Except.error e => Except.error e
    | Except.ok (aPdf, uPdf) =>
      match jsonLoop env.outputDir env.createDirAll env.processJson
          canonical_input_dir excl env.jsonEntries with
      | Except.error e => Except.error e
      | Except.ok (aJson, uJson) =>
        Except.ok (aPdf ++ aJson,
          uPdf ++ uJson ++ allLoop env.isDir excl env.allEntries)

/-! ## Step equations for the batch loops -/

theorem pdfLoop_cons_err_eq (od : FPath) (cd : FPath → Except Str Unit)
    (pp : FPath → FPath → Except Str Unit) (cin : FPath) (excl : FPath → Bool)
    (e : Str) (L : List (Except Str FPath)) :
    pdfLoop od cd pp cin excl (Except.error e :: L)
      = match pdfLoop od cd pp cin excl L with
        | Except.error e2 => Except.error e2
        | Except.ok (acts, unp) =>
          Except.ok (acts, ⟨str "Unknown file", str "Error reading file: " ++ e⟩ :: unp) := rfl

theorem pdfLoop_cons_ok_eq (od : FPath) (cd : FPath → Except Str Unit)
    (pp : FPath → FPath → Except Str Unit) (cin : FPath) (excl : FPath → Bool)
    (path : FPath) (L : List (Except Str FPath)) :
    pdfLoop od cd pp cin excl (Except.ok path :: L)
      = if excl path then pdfLoop od cd pp cin excl L
        else match stripPrefixComponents cin path with
          | none => pdfLoop od cd pp cin excl L
          | some relative_path =>
            match (match parentOpt (od ++ relative_path) with
                   | some parent => cd parent
                   | none => Except.ok ()) with
            | Except.error e => Except.error e
            | Except.ok _ =>
              match pdfLoop od cd pp cin excl L with
              | Except.error e2 => Except.error e2
              | Except.ok (acts, unp) =>
                Except.ok
                  ((match parentOpt (od ++ relative_path) with
                    | some parent => [BatchAction.createdDirs parent]
                    | none => [])
                      ++ BatchAction.processedPdf path (od ++ relative_path) :: acts,
                   match pp path (od ++ relative_path) with
                   | Except.ok _ => unp
                   | Except.error e =>
                     ⟨pathStr path, str "Error processing PDF: " ++ e⟩ :: unp) := rfl

theorem jsonLoop_cons_err_eq (od : FPath) (cd : FPath → Except Str Unit)
    (pj : FPath → FPath → Except Str Unit) (cin : FPath) (excl : FPath → Bool)
    (e : Str) (L : List (Except Str FPath)) :
    jsonLoop od cd pj cin excl (Except.error e :: L)
      = match jsonLoop od cd pj cin excl L with
        | Except.error e2 => Except.error e2
        | Except.ok (acts, unp) =>
          Except.ok (acts, ⟨str "Unknown file", str "Error reading file: " ++ e⟩ :: unp) := rfl

theorem jsonLoop_cons_ok_eq (od : FPath) (cd : FPath → Except Str Unit)
    (pj : FPath → FPath → Except Str Unit) (cin : FPath) (excl : FPath → Bool)
    (path : FPath) (L : List (Except Str FPath)) :
    jsonLoop od cd pj cin excl (Except.ok path :: L)
      = if excl path then jsonLoop od cd pj cin excl L
        else if strContains (pathStr path) (str "_processed") then
          jsonLoop od cd pj cin excl L
        else match stripPrefixComponents cin path with
          | none => jsonLoop od cd pj cin excl L
          | some relative_path =>
            match (match parentOpt (od ++ relative_path) with
                   | some parent => cd parent
                   | none => Except.ok ()) with
            | Except.error e => Except.error e
            | Except.ok _ =>
              match jsonLoop od cd pj cin excl L with
              | Except.error e2 => Except.error e2
              | Except.ok (acts, unp) =>
                Except.ok
                  ((match parentOpt (od ++ relative_path) with
                    | some parent => [BatchAction.createdDirs parent]
                    | none => [])
                      ++ BatchAction.processedJson path (od ++ relative_path) :: acts,
                   match pj path (od ++ relative_path) with
                   | Except.ok _ => unp
                   | Except.error e => ⟨pathStr path, e⟩ :: unp) := rfl

theorem allLoop_cons_err_eq (isDir excl : FPath → Bool) (e : Str)
    (L : List (Except Str FPath)) :
    allLoop isDir excl (Except.error e :: L)
      = ⟨str "Unknown file", str "Error reading file: " ++ e⟩ :: allLoop isDir excl L := rfl

theorem allLoop_cons_ok_eq (isDir excl : FPath → Bool) (path : FPath)
    (L : List (Except Str FPath)) :
    allLoop isDir excl (Except.ok path :: L)
      = if isDir path then allLoop isDir excl L
        else if excl path then allLoop isDir excl L
        else if (match pathExtension path with
                 | some e => decide (e = str "pdf") || decide (e = str "json")
                 | none => false) then allLoop isDir excl L
        else if strContains (pathStr path) (str "_processed") then allLoop isDir excl L
        else ⟨pathStr path, str "Unsupported file type"⟩ :: allLoop isDir excl L := rfl

/-! ## Lemmas about the flatten-and-filter engine -/

theorem recordOf_block_type (b : Block) : (recordOf b).block_type = b.block_type := by
  cases b
  rfl

/-- The engine emits exactly the `Page`-reachable nodes whose type is not
one of the four filtered types, in order, each rewritten by `recordOf`. -/
theorem flatten_eq_pageReachable (bs : List Block) :
    flatten_and_filter_blocks bs
      = ((pageReachable bs).filter (fun b => !isFilteredType b.block_type)).map recordOf := by
  induction bs using flatten_and_filter_blocks.induct with
  | case1 => simp [flatten_and_filter_blocks, pageReachable]
  | case2 i h t pg bb cs sh im rest ih1 ih2 =>
    cases cs with
    | none =>
      simp [flatten_and_filter_blocks, pageReachable, ih2]
    | some children =>
      rw [flatten_and_filter_blocks.eq_def, pageReachable.eq_def]
      simp only [if_pos rfl]
      simp [ih1, ih2, List.filter_append]
  | case3 i bt h t pg bb cs sh im rest hpage hkeep ih =>
    have hf : isFilteredType bt = false := by
      simp [isFilteredType]
      tauto
    rw [flatten_and_filter_blocks.eq_def, pageReachable.eq_def]
    simp [hpage, hkeep, ih, Block.block_type, hf]
  | case4 i bt h t pg bb cs sh im rest hpage hkeep ih =>
    have hf : isFilteredType bt = true := by
      simp [isFilteredType]
      tauto
    rw [flatten_and_filter_blocks.eq_def, pageReachable.eq_def]
    simp [hpage, hkeep, ih, Block.block_type, hf]

theorem mem_pageReachable_not_page (bs : List Block) (b : Block)
    (hmem : b ∈ pageReachable bs) : b.block_type ≠ str "Page" := by
  induction bs using pageReachable.induct with
  | case1 => simp [pageReachable] at hmem
  | case2 i h t pg bb cs sh im rest ih1 ih2 =>
    rw [pageReachable.eq_def] at hmem
    simp only [if_pos rfl] at hmem
    cases cs with
    | none =>
      simp at hmem
      exact ih2 hmem
    | some children =>
      simp at hmem
      rcases hmem with hc | hr
      · exact ih1 hc
      · exact ih2 hr
  | case3 i bt h t pg bb cs sh im rest hpage ih =>
    rw [pageReachable.eq_def] at hmem
    simp [hpage] at hmem
    rcases hmem with hb | hr
    · subst hb
      simpa [Block.block_type] using hpage
    · exact ih hr

theorem mem_flatten_block_type (bs : List Block) (b : Block)
    (hmem : b ∈ flatten_and_filter_blocks bs) :
    isFilteredType b.block_type = false ∧ b.block_type ≠ str "Page" := by
  rw [flatten_eq_pageReachable] at hmem
  rcases List.mem_map.mp hmem with ⟨a, ha, hrec⟩
  rcases List.mem_filter.mp ha with ⟨hreach, hkeep⟩
  have hbt : b.block_type = a.block_type := by
    rw [← hrec, recordOf_block_type]
  constructor
  · rw [hbt]
    simpa using hkeep
  · rw [hbt]
    exact mem_pageReachable_not_page bs a hreach

theorem flatten_skip_filtered (b : Block) (rest : List Block)
    (hf : isFilteredType b.block_type = true) :
    flatten_and_filter_blocks (b :: rest) = flatten_and_filter_blocks rest := by
  cases b with
  | mk i bt h t pg bb cs sh im =>
    have hbt : bt = str "PageHeader" ∨ bt = str "PageFooter" ∨
        bt = str "Picture" ∨ bt = str "ListGroup" := by
      have := hf
      simp [isFilteredType, Block.block_type] at this
      tauto
    have hpage : ¬bt = str "Page" := by
      rcases hbt with h1 | h1 | h1 | h1 <;> subst h1 <;> decide
    have hkeep : ¬(bt ≠ str "PageHeader" ∧ bt ≠ str "PageFooter" ∧
        bt ≠ str "Picture" ∧ bt ≠ str "ListGroup") := by
      tauto
    rw [flatten_and_filter_blocks.eq_def]
    simp only [if_neg hpage, if_neg hkeep]

theorem flatten_page_transparent (b : Block) (rest : List Block)
    (hpage : b.block_type = str "Page") :
    flatten_and_filter_blocks (b :: rest)
      = flatten_and_filter_blocks (b.children.getD []) ++ flatten_and_filter_blocks rest := by
  cases b with
  | mk i bt h t pg bb cs sh im =>
    have hbt : bt = str "Page" := by simpa [Block.block_type] using hpage
    subst hbt
    rw [flatten_and_filter_blocks.eq_def]
    simp only [if_pos rfl]
    cases cs <;> simp [Block.children, flatten_and_filter_blocks]

/-! ## Lemmas about whitespace splitting and normalization -/

theorem dropWhile_length_le (p : Char → Bool) (l : Str) :
    (l.dropWhile p).length ≤ l.length := by
  induction l with
  | nil => simp
  | cons c r ih =>
    by_cases hc : p c = true
    · rw [List.dropWhile_cons_of_pos hc]
      exact Nat.le_succ_of_le ih
    · rw [List.dropWhile_cons_of_neg hc]

theorem dropWhile_head_not (p : Char → Bool) (l : Str) (x : Char) (xs : Str)
    (h : l.dropWhile p = x :: xs) : p x = false := by
  induction l with
  | nil => simp at h
  | cons c r ih =>
    by_cases hc : p c = true
    · rw [List.dropWhile_cons_of_pos hc] at h
      exact ih h
    · rw [List.dropWhile_cons_of_neg hc] at h
      cases h
      simpa using hc

theorem dropWhile_idem (p : Char → Bool) (l : Str) :
    (l.dropWhile p).dropWhile p = l.dropWhile p := by
  cases h : l.dropWhile p with
  | nil => simp
  | cons x xs =>
    have hx : p x = false := dropWhile_head_not p l x xs h
    rw [List.dropWhile_cons_of_neg (by simp [hx])]

/-- Splitting with a nonempty pending (reversed) word: the word is completed
by the leading whitespace-free run, and splitting continues after it. -/
theorem wordsAux_acc_ne (l : Str) : ∀ acc : Str, acc ≠ [] →
    wordsAux l acc
      = (acc.reverse ++ l.takeWhile (fun c => !isWs c))
          :: splitWhitespace (l.dropWhile (fun c => !isWs c)) := by
  induction l with
  | nil =>
    intro acc h
    match acc with
    | a :: acc2 => simp [wordsAux, splitWhitespace]
  | cons c r ih =>
    intro acc h
    match acc with
    | a :: acc2 =>
      cases hc : isWs c with
      | true =>
        have ht : List.takeWhile (fun c => !isWs c) (c :: r) = [] :=
          List.takeWhile_cons_of_neg (by simp [hc])
        have hd : List.dropWhile (fun c => !isWs c) (c :: r) = c :: r :=
          List.dropWhile_cons_of_neg (by simp [hc])
        rw [ht, hd, List.append_nil]
        have hsplit : splitWhitespace (c :: r) = wordsAux r [] := by
          simp [splitWhitespace, wordsAux, hc]
        rw [hsplit]
        simp [wordsAux, hc]
      | false =>
        have ht : List.takeWhile (fun c => !isWs c) (c :: r)
            = c :: List.takeWhile (fun c => !isWs c) r :=
          List.takeWhile_cons_of_pos (by simp [hc])
        have hd : List.dropWhile (fun c => !isWs c) (c :: r)
            = List.dropWhile (fun c => !isWs c) r :=
          List.dropWhile_cons_of_pos (by simp [hc])
        rw [ht, hd]
        have step : wordsAux (c :: r) (a :: acc2) = wordsAux r (c :: a :: acc2) := by
          simp [wordsAux, hc]
        rw [step, ih (c :: a :: acc2) (by simp)]
        simp

theorem splitWs_ws_cons (c : Char) (l : Str) (hc : isWs c = true) :
    splitWhitespace (c :: l) = splitWhitespace l := by
  simp [splitWhitespace, wordsAux, hc]

theorem splitWs_cons_nonWs (c : Char) (l : Str) (hc : isWs c = false) :
    splitWhitespace (c :: l)
      = (c :: l.takeWhile (fun c => !isWs c))
          :: splitWhitespace (l.dropWhile (fun c => !isWs c)) := by
  have step : splitWhitespace (c :: l) = wordsAux l [c] := by
    simp [splitWhitespace, wordsAux, hc]
  rw [step, wordsAux_acc_ne l [c] (by simp)]
  simp

/-- Splitting ignores leading whitespace. -/
theorem splitWs_dropWhile (l : Str) :
    splitWhitespace (l.dropWhile (fun c => isWs c)) = splitWhitespace l := by
  induction l with
  | nil => rfl
  | cons c r ih =>
    cases hc : isWs c with
    | true =>
      rw [List.dropWhile_cons_of_pos (by simp [hc]), ih, splitWs_ws_cons c r hc]
    | false =>
      rw [List.dropWhile_cons_of_neg (by simp [hc])]

theorem joinSpace_word_cons (w : Str) (ws : List Str) :
    joinSpace (w :: ws) = w ++ joinTail ws := by
  cases ws with
  | nil => simp [joinSpace, joinTail]
  | cons w2 rest => rfl

theorem joinSpace_cons_char (c : Char) (w : Str) (ws : List Str) :
    joinSpace ((c :: w) :: ws) = c :: joinSpace (w :: ws) := by
  cases ws with
  | nil => rfl
  | cons w2 rest => rfl

/-- Every word produced with a whitespace-free pending accumulator is
nonempty and whitespace-free. -/
theorem wordsAux_mem_props (l : Str) : ∀ (acc : Str) (w : Str),
    (∀ c ∈ acc, isWs c = false) → w ∈ wordsAux l acc →
    w ≠ [] ∧ ∀ c ∈ w, isWs c = false := by
  induction l with
  | nil =>
    intro acc w hacc hw
    match acc with
    | [] => simp [wordsAux] at hw
    | a :: acc2 =>
      simp [wordsAux] at hw
      subst hw
      refine ⟨by simp, ?_⟩
      intro c hc
      refine hacc c ?_
      simp at hc ⊢
      tauto
  | cons c r ih =>
    intro acc w hacc hw
    cases hc : isWs c with
    | true =>
      match acc with
      | [] =>
        rw [show wordsAux (c :: r) [] = wordsAux r [] by simp [wordsAux, hc]] at hw
        exact ih [] w (by simp) hw
      | a :: acc2 =>
        rw [show wordsAux (c :: r) (a :: acc2) = (a :: acc2).reverse :: wordsAux r []
              by simp [wordsAux, hc]] at hw
        rcases List.mem_cons.mp hw with hw1 | hw2
        · subst hw1
          refine ⟨by simp, ?_⟩
          intro x hx
          refine hacc x ?_
          simp at hx ⊢
          tauto
        · exact ih [] w (by simp) hw2
    | false =>
      rw [show wordsAux (c :: r) acc = wordsAux r (c :: acc) by simp [wordsAux, hc]] at hw
      refine ih (c :: acc) w ?_ hw
      intro x hx
      rcases List.mem_cons.mp hx with hx1 | hx2
      · subst hx1; exact hc
      · exact hacc x hx2

theorem mem_splitWs_props (l : Str) (w : Str) (hw : w ∈ splitWhitespace l) :
    w ≠ [] ∧ ∀ c ∈ w, isWs c = false :=
  wordsAux_mem_props l [] w (by simp) hw

/-- Characters of the produced words come from the input or the pending
accumulator. -/
theorem wordsAux_mem_chars (l : Str) : ∀ (acc w : Str) (c : Char),
    w ∈ wordsAux l acc → c ∈ w → c ∈ l ∨ c ∈ acc := by
  induction l with
  | nil =>
    intro acc w c hw hc
    match acc with
    | [] => simp [wordsAux] at hw
    | a :: acc2 =>
      simp [wordsAux] at hw
      subst hw
      right
      simp at hc ⊢
      tauto
  | cons x r ih =>
    intro acc w c hw hc
    cases hx : isWs x with
    | true =>
      match acc with
      | [] =>
        rw [show wordsAux (x :: r) [] = wordsAux r [] by simp [wordsAux, hx]] at hw
        rcases ih [] w c hw hc with h | h
        · exact Or.inl (List.mem_cons_of_mem x h)
        · simp at h
      | a :: acc2 =>
        rw [show wordsAux (x :: r) (a :: acc2) = (a :: acc2).reverse :: wordsAux r []
              by simp [wordsAux, hx]] at hw
        rcases List.mem_cons.mp hw with hw1 | hw2
        · subst hw1
          right
          simp at hc ⊢
          tauto
        · rcases ih [] w c hw2 hc with h | h
          · exact Or.inl (List.mem_cons_of_mem x h)
          · simp at h
    | false =>
      rw [show wordsAux (x :: r) acc = wordsAux r (x :: acc) by simp [wordsAux, hx]] at hw
      rcases ih (x :: acc) w c hw hc with h | h
      · exact Or.inl (List.mem_cons_of_mem x h)
      · rcases List.mem_cons.mp h with h1 | h2
        · exact Or.inl (h1 ▸ List.mem_cons_self x r)
        · exact Or.inr h2

theorem mem_joinSpace (ws : List Str) (c : Char) (hc : c ∈ joinSpace ws) :
    c = ' ' ∨ ∃ w ∈ ws, c ∈ w := by
  induction ws using joinSpace.induct with
  | case1 => simp [joinSpace] at hc
  | case2 w =>
    right
    exact ⟨w, by simp, by simpa [joinSpace] using hc⟩
  | case3 w w2 rest ih =>
    rw [show joinSpace (w :: w2 :: rest) = w ++ ' ' :: joinSpace (w2 :: rest) from rfl] at hc
    rcases List.mem_append.mp hc with h | h
    · exact Or.inr ⟨w, by simp, h⟩
    · rcases List.mem_cons.mp h with h1 | h2
      · exact Or.inl h1
      · rcases ih h2 with h3 | ⟨w3, hw3, hc3⟩
        · exact Or.inl h3
        · exact Or.inr ⟨w3, List.mem_cons_of_mem _ hw3, hc3⟩

theorem mem_normWs (l : Str) (c : Char) (hc : c ∈ normWs l) : c = ' ' ∨ c ∈ l := by
  rcases mem_joinSpace _ c hc with h | ⟨w, hw, hcw⟩
  · exact Or.inl h
  · rcases wordsAux_mem_chars l [] w c hw hcw with h | h
    · exact Or.inr h
    · simp at h

theorem normWs_eq_nil_iff (l : Str) : normWs l = [] ↔ splitWhitespace l = [] := by
  constructor
  · intro h
    cases hs : splitWhitespace l with
    | nil => rfl
    | cons w ws =>
      have hne : w ≠ [] := (mem_splitWs_props l w (by rw [hs]; simp)).1
      rw [normWs, hs, joinSpace_word_cons] at h
      exact absurd (List.append_eq_nil.mp h).1 hne
  · intro h
    rw [normWs, h]
    rfl

theorem collapseRuns_cons_nonWs (c : Char) (l : Str) (hc : isWs c = false) :
    collapseRuns (c :: l) = c :: collapseRuns l := by
  cases l with
  | nil => simp [collapseRuns, hc]
  | cons c2 r => simp [collapseRuns, hc]

theorem collapseRuns_cons_ws (l : Str) : ∀ c, isWs c = true →
    collapseRuns (c :: l) = ' ' :: collapseRuns (l.dropWhile (fun x => isWs x)) := by
  induction l with
  | nil =>
    intro c hc
    simp [collapseRuns, hc]
  | cons c2 r ih =>
    intro c hc
    cases h2 : isWs c2 with
    | true =>
      rw [show collapseRuns (c :: c2 :: r) = collapseRuns (c2 :: r)
            by simp [collapseRuns, hc, h2],
          ih c2 h2, List.dropWhile_cons_of_pos (by simp [h2])]
    | false =>
      rw [show collapseRuns (c :: c2 :: r) = ' ' :: collapseRuns (c2 :: r)
            by simp [collapseRuns, hc, h2],
          List.dropWhile_cons_of_neg (by simp [h2])]

/-- Rewriting `specNormalize` as a single leading `dropWhile`. -/
theorem specNormalize_eq_SN (l : Str) :
    specNormalize l = trimEnd (collapseRuns (l.dropWhile (fun c => isWs c))) := by
  unfold specNormalize
  congr 1
  cases l with
  | nil => rfl
  | cons c r =>
    cases hc : isWs c with
    | false =>
      rw [collapseRuns_cons_nonWs c r hc, List.dropWhile_cons_of_neg (by simp [hc])]
      unfold trimStart
      rw [List.dropWhile_cons_of_neg (by simp [hc]), collapseRuns_cons_nonWs c r hc]
    | true =>
      rw [collapseRuns_cons_ws r c hc, List.dropWhile_cons_of_pos (by simp [hc])]
      unfold trimStart
      rw [List.dropWhile_cons_of_pos (by simp [isWs])]
      cases hz : r.dropWhile (fun x => isWs x) with
      | nil => rfl
      | cons d d2 =>
        have hd : isWs d = false := dropWhile_head_not _ r d d2 hz
        rw [collapseRuns_cons_nonWs d d2 hd,
          List.dropWhile_cons_of_neg (by simp [hd])]

theorem dropWhile_append_singleton (p : Char → Bool) (xs : Str) (c : Char) :
    (xs ++ [c]).dropWhile p
      = if xs.dropWhile p = [] then [c].dropWhile p else xs.dropWhile p ++ [c] := by
  induction xs with
  | nil => simp
  | cons x r ih =>
    by_cases hx : p x = true
    · rw [List.cons_append, List.dropWhile_cons_of_pos hx, ih,
        List.dropWhile_cons_of_pos hx]
    · rw [List.cons_append, List.dropWhile_cons_of_neg hx,
        List.dropWhile_cons_of_neg hx]
      simp

theorem trimEnd_cons (c : Char) (l : Str) :
    trimEnd (c :: l)
      = if trimEnd l = [] then (if isWs c then [] else [c]) else c :: trimEnd l := by
  unfold trimEnd
  rw [List.reverse_cons, dropWhile_append_singleton]
  by_cases h : l.reverse.dropWhile (fun c => isWs c) = []
  · rw [if_pos h, if_pos (by rw [h]; rfl)]
    cases hc : isWs c with
    | true => simp [List.dropWhile, hc]
    | false => simp [List.dropWhile, hc]
  · rw [if_neg h, if_neg (by simpa using h)]
    simp

theorem trimEnd_cons_nonWs (c : Char) (l : Str) (hc : isWs c = false) :
    trimEnd (c :: l) = c :: trimEnd l := by
  rw [trimEnd_cons, hc]
  by_cases h : trimEnd l = [] <;> simp [h]

theorem normWs_ws_cons (c : Char) (l : Str) (hc : isWs c = true) :
    normWs (c :: l) = normWs l := by
  unfold normWs
  rw [splitWs_ws_cons c l hc]

theorem specNormalize_ws_cons (c : Char) (l : Str) (hc : isWs c = true) :
    specNormalize (c :: l) = specNormalize l := by
  rw [specNormalize_eq_SN, specNormalize_eq_SN,
    List.dropWhile_cons_of_pos (by simp [hc])]

/-- The composite `split_whitespace().join(" ")` computes exactly the collapse-runs-and-
trim normalization the spec describes. -/
theorem normWs_eq_specNormalize (l : Str) : normWs l = specNormalize l := by
  cases l with
  | nil => rfl
  | cons c rest =>
    cases hc : isWs c with
    | true =>
      rw [normWs_ws_cons c rest hc, specNormalize_ws_cons c rest hc]
      exact normWs_eq_specNormalize rest
    | false =>
      cases rest with
      | nil =>
        rw [show normWs [c] = [c] by
              simp [normWs, splitWhitespace, wordsAux, hc, joinSpace]]
        rw [specNormalize_eq_SN, List.dropWhile_cons_of_neg (by simp [hc])]
        simp [collapseRuns, hc, trimEnd]
      | cons r0 r2 =>
        cases hr : isWs r0 with
        | false =>
          have hL : normWs (c :: r0 :: r2) = c :: normWs (r0 :: r2) := by
            unfold normWs
            rw [splitWs_cons_nonWs c (r0 :: r2) hc,
              List.takeWhile_cons_of_pos (p := fun x => !isWs x) (by simp [hr]),
              List.dropWhile_cons_of_pos (p := fun x => !isWs x) (by simp [hr]),
              splitWs_cons_nonWs r0 r2 hr, joinSpace_cons_char]
          have hR : specNormalize (c :: r0 :: r2) = c :: specNormalize (r0 :: r2) := by
            rw [specNormalize_eq_SN, specNormalize_eq_SN,
              List.dropWhile_cons_of_neg (by simp [hc]),
              List.dropWhile_cons_of_neg (by simp [hr]),
              collapseRuns_cons_nonWs c (r0 :: r2) hc,
              trimEnd_cons_nonWs c _ hc]
          rw [hL, hR, normWs_eq_specNormalize (r0 :: r2)]
        | true =>
          have key := normWs_eq_specNormalize (r2.dropWhile (fun x => isWs x))
          have hL : normWs (c :: r0 :: r2)
              = c :: joinTail (splitWhitespace (r2.dropWhile (fun x => isWs x))) := by
            unfold normWs
            rw [splitWs_cons_nonWs c (r0 :: r2) hc,
              List.takeWhile_cons_of_neg (p := fun x => !isWs x) (by simp [hr]),
              List.dropWhile_cons_of_neg (p := fun x => !isWs x) (by simp [hr])]
            have hrw : splitWhitespace (r0 :: r2)
                = splitWhitespace (r2.dropWhile (fun x => isWs x)) := by
              rw [← splitWs_dropWhile (r0 :: r2),
                List.dropWhile_cons_of_pos (by simp [hr])]
            rw [hrw, joinSpace_word_cons]
            rfl
          have hSN : specNormalize (r2.dropWhile (fun x => isWs x))
              = trimEnd (collapseRuns (r2.dropWhile (fun x => isWs x))) := by
            rw [specNormalize_eq_SN, dropWhile_idem]
          have hR : specNormalize (c :: r0 :: r2)
              = c :: (if trimEnd (collapseRuns (r2.dropWhile (fun x => isWs x))) = []
                      then []
                      else ' ' :: trimEnd (collapseRuns (r2.dropWhile (fun x => isWs x)))) := by
            rw [specNormalize_eq_SN, List.dropWhile_cons_of_neg (by simp [hc]),
              collapseRuns_cons_nonWs c (r0 :: r2) hc,
              trimEnd_cons_nonWs c _ hc,
              collapseRuns_cons_ws r2 r0 hr,
              trimEnd_cons]
            simp only [show isWs ' ' = true from rfl, if_true]
          rw [hL, hR]
          cases hsplit : splitWhitespace (r2.dropWhile (fun x => isWs x)) with
          | nil =>
            have h1 : normWs (r2.dropWhile (fun x => isWs x)) = [] := by
              rw [normWs, hsplit]; rfl
            have h3 : trimEnd (collapseRuns (r2.dropWhile (fun x => isWs x))) = [] := by
              rw [← hSN, ← key]; exact h1
            rw [h3, if_pos rfl]
            rfl
          | cons w ws =>
            have h1 : normWs (r2.dropWhile (fun x => isWs x)) ≠ [] := by
              intro hcontra
              rw [(normWs_eq_nil_iff _).mp hcontra] at hsplit
              cases hsplit
            have h3 : trimEnd (collapseRuns (r2.dropWhile (fun x => isWs x))) ≠ [] := by
              rw [← hSN, ← key]; exact h1
            rw [if_neg h3, joinTail, ← hsplit]
            have : joinSpace (splitWhitespace (r2.dropWhile (fun x => isWs x)))
                = trimEnd (collapseRuns (r2.dropWhile (fun x => isWs x))) := by
              rw [← hSN, ← key]; rfl
            rw [this]
termination_by l.length
decreasing_by
  all_goals try simp
  all_goals refine Nat.lt_of_le_of_lt (dropWhile_length_le _ _) ?_
  all_goals omega

theorem splitWs_all_ws (l : Str) (h : ∀ c ∈ l, isWs c = true) :
    splitWhitespace l = [] := by
  induction l with
  | nil => rfl
  | cons c r ih =>
    rw [splitWs_ws_cons c r (h c (List.mem_cons_self c r))]
    exact ih (fun x hx => h x (List.mem_cons_of_mem c hx))

theorem stripAux_false_no_lt (l : Str) (h : '<' ∉ l) : stripAux false l = l := by
  induction l with
  | nil => rfl
  | cons c r ih =>
    have hc : ¬(c = '<') := fun hco => h (hco ▸ List.mem_cons_self c r)
    rw [show stripAux false (c :: r) = c :: stripAux false r by simp [stripAux, hc]]
    rw [ih (fun hm => h (List.mem_cons_of_mem c hm))]

theorem takeWhile_word_append (u t : Str) (hu : ∀ c ∈ u, isWs c = false) :
    List.takeWhile (fun c => !isWs c) (u ++ ' ' :: t) = u := by
  induction u with
  | nil => simp [List.takeWhile_cons_of_neg, isWs]
  | cons a u2 ih =>
    rw [List.cons_append,
      List.takeWhile_cons_of_pos (by simp [hu a (List.mem_cons_self a u2)]),
      ih (fun c hc => hu c (List.mem_cons_of_mem a hc))]

theorem dropWhile_word_append (u t : Str) (hu : ∀ c ∈ u, isWs c = false) :
    List.dropWhile (fun c => !isWs c) (u ++ ' ' :: t) = ' ' :: t := by
  induction u with
  | nil => simp [List.dropWhile_cons_of_neg, isWs]
  | cons a u2 ih =>
    rw [List.cons_append,
      List.dropWhile_cons_of_pos (by simp [hu a (List.mem_cons_self a u2)]),
      ih (fun c hc => hu c (List.mem_cons_of_mem a hc))]

theorem splitWs_single_word (u : Str) (hne : u ≠ [])
    (hu : ∀ c ∈ u, isWs c = false) : splitWhitespace u = [u] := by
  match u with
  | a :: u2 =>
    rw [splitWs_cons_nonWs a u2 (hu a (List.mem_cons_self a u2)),
      List.takeWhile_eq_self_iff.mpr
        (by intro x hx; simp [hu x (List.mem_cons_of_mem a hx)]),
      show List.dropWhile (fun c => !isWs c) u2 = [] by
        rw [List.dropWhile_eq_nil_iff]
        intro x hx
        simp [hu x (List.mem_cons_of_mem a hx)]]
    rfl

/-- Splitting a `join(" ")` of nonempty whitespace-free words recovers the
words. -/
theorem splitWs_joinSpace (ws : List Str)
    (h : ∀ w ∈ ws, w ≠ [] ∧ ∀ c ∈ w, isWs c = false) :
    splitWhitespace (joinSpace ws) = ws := by
  induction ws using joinSpace.induct with
  | case1 => rfl
  | case2 w =>
    rcases h w (by simp) with ⟨hne, hw⟩
    rw [show joinSpace [w] = w from rfl]
    exact splitWs_single_word w hne hw
  | case3 w w2 rest ih =>
    rcases h w (by simp) with ⟨hne, hw⟩
    rw [show joinSpace (w :: w2 :: rest) = w ++ ' ' :: joinSpace (w2 :: rest) from rfl]
    match w with
    | a :: u2 =>
      rw [List.cons_append,
        splitWs_cons_nonWs a _ (hw a (List.mem_cons_self a u2)),
        takeWhile_word_append u2 _ (fun c hc => hw c (List.mem_cons_of_mem a hc)),
        dropWhile_word_append u2 _ (fun c hc => hw c (List.mem_cons_of_mem a hc)),
        splitWs_ws_cons ' ' _ (by rfl),
        ih (fun x hx => h x (List.mem_cons_of_mem _ hx))]

theorem normWs_idem (s : Str) : normWs (normWs s) = normWs s := by
  show joinSpace (splitWhitespace (joinSpace (splitWhitespace s))) = normWs s
  rw [splitWs_joinSpace (splitWhitespace s) (fun w hw => mem_splitWs_props s w hw)]
  rfl

/-! ## Claims C7-C8: text extraction -/

/-- C7: `extract_text_from_html` replaces each `<...>` span by one space
(`stripTags`) and then performs exactly the collapse-whitespace-runs-and-
trim normalization; consequently an input that is empty or all-whitespace
after tag stripping yields the empty string. -/
theorem claim_C7 (s : Str) :
    extract_text_from_html s = specNormalize (stripTags s)
    ∧ ((stripTags s).all isWs = true → extract_text_from_html s = []) := by
  constructor
  · exact normWs_eq_specNormalize (stripTags s)
  · intro h
    show normWs (stripTags s) = []
    rw [normWs, splitWs_all_ws (stripTags s) (List.all_eq_true.mp h)]
    rfl

/-- C7 witness: a tag pair enclosing only whitespace normalizes to the
empty string. -/
theorem claim_C7_witness :
    (stripTags (str "<p>  \n </p>")).all isWs = true
    ∧ extract_text_from_html (str "<p>  \n </p>") = [] :=
  ⟨rfl, (claim_C7 (str "<p>  \n </p>")).2 rfl⟩

/-- C8: on a string with no angle bracket, text extraction only normalizes
whitespace, and applying it twice equals applying it once. -/
theorem claim_C8 (s : Str) (hlt : '<' ∉ s) (hgt : '>' ∉ s) :
    extract_text_from_html s = specNormalize s
    ∧ extract_text_from_html (extract_text_from_html s) = extract_text_from_html s := by
  have hstrip : stripTags s = s := stripAux_false_no_lt s hlt
  have h1 : extract_text_from_html s = normWs s := by
    show normWs (stripTags s) = normWs s
    rw [hstrip]
  constructor
  · rw [h1]
    exact normWs_eq_specNormalize s
  · have hlt2 : '<' ∉ extract_text_from_html s := by
      intro hmem
      rw [h1] at hmem
      rcases mem_normWs s '<' hmem with h | h
      · exact absurd h (by decide)
      · exact hlt h
    have hstrip2 : stripTags (extract_text_from_html s) = extract_text_from_html s :=
      stripAux_false_no_lt _ hlt2
    show normWs (stripTags (extract_text_from_html s)) = extract_text_from_html s
    rw [hstrip2, h1]
    exact normWs_idem s

/-- C8 witness: idempotence on a concrete bracket-free string. -/
theorem claim_C8_witness :
    '<' ∉ str "hello  world" ∧ '>' ∉ str "hello  world"
    ∧ (extract_text_from_html (str "hello  world") = specNormalize (str "hello  world")
       ∧ extract_text_from_html (extract_text_from_html (str "hello  world"))
           = extract_text_from_html (str "hello  world")) :=
  ⟨by decide, by decide, claim_C8 (str "hello  world") (by decide) (by decide)⟩

/-! ## Lemmas about output path resolution -/

theorem revSplitDot_stem_len (pre : Str) : ∀ (suf e st : Str),
    revSplitDot (pre ++ '.' :: suf) = some (e, st) → suf.length ≤ st.length := by
  induction pre with
  | nil =>
    intro suf e st h
    simp only [List.nil_append] at h
    rw [show revSplitDot ('.' :: suf) = some ([], suf) by simp [revSplitDot]] at h
    cases h
    exact Nat.le_refl _
  | cons c pre2 ih =>
    intro suf e st h
    simp only [List.cons_append] at h
    by_cases hc : c = '.'
    · subst hc
      rw [show revSplitDot ('.' :: (pre2 ++ '.' :: suf)) = some ([], pre2 ++ '.' :: suf)
            by simp [revSplitDot]] at h
      cases h
      simp
      omega
    · rw [show revSplitDot (c :: (pre2 ++ '.' :: suf))
            = (revSplitDot (pre2 ++ '.' :: suf)).map (fun pr => (c :: pr.1, pr.2))
            by simp [revSplitDot, hc]] at h
      cases hrec : revSplitDot (pre2 ++ '.' :: suf) with
      | none => rw [hrec] at h; cases h
      | some pr =>
        rw [hrec] at h
        cases h
        exact ih suf pr.1 pr.2 (by rw [hrec])

/-- The stem of `{s}_processed.{ext}` is strictly longer than `s`. -/
theorem stem_of_processed_longer (s ext : Str) :
    s.length < (rustFileStem (s ++ str "_processed." ++ ext)).length := by
  have h11 : (str "_processed.").length = 11 := rfl
  have h10 : (str "_processed").length = 10 := rfl
  have hlenm : (s ++ str "_processed." ++ ext).length = s.length + 11 + ext.length := by
    rw [List.length_append, List.length_append, h11]
  have hrev : (s ++ str "_processed." ++ ext).reverse
      = ext.reverse ++ '.' :: ((str "_processed").reverse ++ s.reverse) := by
    have hdot : str "_processed." = str "_processed" ++ ['.'] := rfl
    rw [hdot]
    simp
  cases hsp : revSplitDot (s ++ str "_processed." ++ ext).reverse with
  | none =>
    simp only [rustFileStem, hsp]
    rw [hlenm]
    omega
  | some pr =>
    obtain ⟨e1, st1⟩ := pr
    by_cases hst : st1 = []
    · simp only [rustFileStem, hsp, hst, if_pos]
      rw [hlenm]
      omega
    · simp only [rustFileStem, hsp, if_neg hst]
      rw [List.length_reverse]
      have hle : ((str "_processed").reverse ++ s.reverse).length ≤ st1.length := by
        refine revSplitDot_stem_len ext.reverse _ e1 st1 ?_
        rw [← hrev]
        exact hsp
      rw [List.length_append, List.length_reverse, List.length_reverse, h10] at hle
      omega

theorem processed_name_ne (name ext : Str) :
    name ≠ rustFileStem name ++ str "_processed." ++ ext := by
  intro h
  have hlt := stem_of_processed_longer (rustFileStem name) ext
  rw [← h] at hlt
  exact absurd hlt (Nat.lt_irrefl _)

/-- No file name equals its own Rust-style `_processed` decoration. -/
theorem name_processed_fixpoint (name ext : Str)
    (h : name
      = (if name = str ".." ∨ name = str "." then str "output" else rustFileStem name)
        ++ str "_processed." ++ ext) : False := by
  by_cases hd : name = str ".." ∨ name = str "."
  · rw [if_pos hd] at h
    have hlen : name.length = 17 + ext.length := by
      rw [h]
      simp [str]
      omega
    rcases hd with hd2 | hd2 <;> rw [hd2] at hlen <;> simp [str] at hlen <;> omega
  · rw [if_neg hd] at h
    exact processed_name_ne name ext h

theorem concat_processed_ne_input (input q : FPath) (ext : Str) :
    input ≠ q ++ [fileStemOrOutput input ++ str "_processed." ++ ext] := by
  intro h
  set st := fileStemOrOutput input with hst
  have hlast : input.getLast? = some (st ++ str "_processed." ++ ext) := by
    conv_lhs => rw [h]
    exact List.getLast?_concat q
  by_cases hd : st ++ str "_processed." ++ ext = str ".."
      ∨ st ++ str "_processed." ++ ext = str "."
  · have h11 : (str "_processed.").length = 11 := rfl
    have hlen : (st ++ str "_processed." ++ ext).length = st.length + 11 + ext.length := by
      rw [List.length_append, List.length_append, h11]
    rcases hd with hd2 | hd2 <;> rw [hd2] at hlen <;> simp [str] at hlen <;> omega
  · have hfn : rustFileName input = some (st ++ str "_processed." ++ ext) := by
      unfold rustFileName
      rw [hlast]
      show (if st ++ str "_processed." ++ ext = str ".."
              ∨ st ++ str "_processed." ++ ext = str "."
            then none else some (st ++ str "_processed." ++ ext))
          = some (st ++ str "_processed." ++ ext)
      rw [if_neg hd]
    have hst2 : st = rustFileStem (st ++ str "_processed." ++ ext) := by
      conv_lhs => rw [hst]
      unfold fileStemOrOutput
      rw [hfn]
    refine processed_name_ne (st ++ str "_processed." ++ ext) ext ?_
    conv_lhs => rw [hst2]

/-! ## Claim C9: output path resolution never returns the input path -/

/-- C9: whatever the input path, the optional explicit output directory and
the extension, a successfully resolved output path differs from the input
path (the `_processed` suffix forces a longer file stem). -/
theorem claim_C9 (createDirAll : FPath → Except Str Unit) (input : FPath)
    (output_dir : Option FPath) (extension : Str) (p : FPath)
    (h : determine_output_path createDirAll input output_dir extension = Except.ok p) :
    p ≠ input := by
  cases output_dir with
  | some d =>
    simp only [determine_output_path] at h
    cases hcd : createDirAll d with
    | error e => rw [hcd] at h; cases h
    | ok u =>
      rw [hcd] at h
      cases h
      intro hq
      exact concat_processed_ne_input input d extension hq.symm
  | none =>
    simp only [determine_output_path] at h
    cases h
    intro hq
    exact concat_processed_ne_input input (parentOrDot input) extension hq.symm

/-- C9 witness: resolution applied to a concrete input. -/
theorem claim_C9_witness :
    determine_output_path (fun _ => Except.ok ()) [str "docs", str "a.json"] none (str "json")
      = Except.ok [str "docs", str "a_processed.json"]
    ∧ [str "docs", str "a_processed.json"] ≠ [str "docs", str "a.json"] :=
  ⟨rfl, claim_C9 (fun _ => Except.ok ()) [str "docs", str "a.json"] none (str "json")
    [str "docs", str "a_processed.json"] rfl⟩

/-! ## Claims C1-C4: the flatten-and-filter engine -/

/-- C1, counterexample: a `SectionHeader` node with a nested `Text` child is
flattened to the `SectionHeader` record alone — the engine never visits the
children of a non-`Page` node, so the `Text` child is not emitted at all,
contradicting "the emission of such a node is immediately followed by the
emissions of that node's own children". -/
theorem claim_C1_counterexample :
    flatten_and_filter_blocks
      [Block.mk (str "/sh") (str "SectionHeader") [] [] none none
        (some [Block.mk (str "/sh/t") (str "Text") (str "<p>x</p>") [] none none none none none])
        none none]
    = [Block.mk (str "/sh") (str "SectionHeader") [] [] none none none none none] := by
  simp [flatten_and_filter_blocks, recordOf, extract_text_from_html, stripTags, stripAux,
    splitWhitespace, wordsAux, joinSpace, str]

/-- C1 (amended): the engine emits exactly the nodes reachable from the
root through `Page`-typed ancestors whose own type is not `Page` and not in
`{PageHeader, PageFooter, Picture, ListGroup}`, each exactly once, in
pre-order, rewritten to a terminal record; the children of an emitted
(non-`Page`) node are dropped wholesale, never visited and never emitted. -/
theorem claim_C1_amended (bs : List Block) :
    flatten_and_filter_blocks bs
      = ((pageReachable bs).filter (fun b => !isFilteredType b.block_type)).map recordOf :=
  flatten_eq_pageReachable bs

/-- C2, counterexample: a `Header`-typed node IS emitted by the engine (the
source only filters `PageHeader`, `PageFooter`, `Picture`, `ListGroup`), so
the claimed exclusion set `{Page, Header, Footer, PageHeader, PageFooter,
Picture, ListGroup}` is wrong about `Header`. -/
theorem claim_C2_counterexample :
    flatten_and_filter_blocks
      [Block.mk (str "/hd") (str "Header") [] [] none none none none none]
    = [Block.mk (str "/hd") (str "Header") [] [] none none none none none] := by
  simp [flatten_and_filter_blocks, recordOf, extract_text_from_html, stripTags, stripAux,
    splitWhitespace, wordsAux, joinSpace, str]

/-- C2 (amended): a node whose `block_type` is in the set
`{Page, PageHeader, PageFooter, Picture, ListGroup}` (without `Header` and
`Footer`, which the engine treats as content) never appears among the
records output by `flatten_and_filter_blocks`. -/
theorem claim_C2_amended (bs : List Block) (b : Block)
    (hmem : b ∈ flatten_and_filter_blocks bs) :
    ¬(b.block_type = str "Page" ∨ b.block_type = str "PageHeader" ∨
      b.block_type = str "PageFooter" ∨ b.block_type = str "Picture" ∨
      b.block_type = str "ListGroup") := by
  rcases mem_flatten_block_type bs b hmem with ⟨hfil, hpage⟩
  simp [isFilteredType] at hfil
  tauto

/-- C2 witness: a `Text` node is emitted and its type is in none of the
excluded cases. -/
theorem claim_C2_witness :
    Block.mk (str "/t") (str "Text") [] [] none none none none none
        ∈ flatten_and_filter_blocks
            [Block.mk (str "/t") (str "Text") [] [] none none none none none]
    ∧ ¬((Block.mk (str "/t") (str "Text") [] [] none none none none none :
          Block).block_type = str "Page" ∨
        (Block.mk (str "/t") (str "Text") [] [] none none none none none :
          Block).block_type = str "PageHeader" ∨
        (Block.mk (str "/t") (str "Text") [] [] none none none none none :
          Block).block_type = str "PageFooter" ∨
        (Block.mk (str "/t") (str "Text") [] [] none none none none none :
          Block).block_type = str "Picture" ∨
        (Block.mk (str "/t") (str "Text") [] [] none none none none none :
          Block).block_type = str "ListGroup") := by
  have hmem : Block.mk (str "/t") (str "Text") [] [] none none none none none
      ∈ flatten_and_filter_blocks
          [Block.mk (str "/t") (str "Text") [] [] none none none none none] := by
    simp [flatten_and_filter_blocks, recordOf, extract_text_from_html, stripTags, stripAux,
      splitWhitespace, wordsAux, joinSpace, str]
  exact ⟨hmem, claim_C2_amended _ _ hmem⟩

/-- C3, counterexample: a `Footer`-typed node is NOT pruned — it is emitted
as a record (only `PageHeader`, `PageFooter`, `Picture`, `ListGroup` are
filtered), contradicting the claim that `Footer` nodes never appear. -/
theorem claim_C3_counterexample :
    flatten_and_filter_blocks
      [Block.mk (str "/ft") (str "Footer") [] [] none none
        (some [Block.mk (str "/ft/t") (str "Text") (str "<p>x</p>") [] none none none none none])
        none none]
    = [Block.mk (str "/ft") (str "Footer") [] [] none none none none none] := by
  simp [flatten_and_filter_blocks, recordOf, extract_text_from_html, stripTags, stripAux,
    splitWhitespace, wordsAux, joinSpace, str]

/-- C3 (amended): nodes of type `PageHeader`, `PageFooter`, `Picture`,
`ListGroup` are fully pruned — such a node contributes nothing (neither
itself nor any descendant) to the output, and no record of these four types
ever appears; `Header` and `Footer`, however, are not excluded (see the
counterexample), though their descendants are dropped like those of every
non-`Page` node. -/
theorem claim_C3_amended :
    (∀ (b : Block) (rest : List Block), isFilteredType b.block_type = true →
        flatten_and_filter_blocks (b :: rest) = flatten_and_filter_blocks rest)
    ∧ (∀ (bs : List Block) (b : Block), b ∈ flatten_and_filter_blocks bs →
        isFilteredType b.block_type = false) :=
  ⟨flatten_skip_filtered, fun bs b h => (mem_flatten_block_type bs b h).1⟩

/-- C3 witness: a `Picture` node with a content-typed (`Text`) child is
dropped together with its whole subtree. -/
theorem claim_C3_witness :
    isFilteredType (Block.mk (str "/pic") (str "Picture") [] [] none none
        (some [Block.mk (str "/pic/c") (str "Text") (str "<p>cap</p>") [] none none none none none])
        none none : Block).block_type = true
    ∧ flatten_and_filter_blocks
        [Block.mk (str "/pic") (str "Picture") [] [] none none
          (some [Block.mk (str "/pic/c") (str "Text") (str "<p>cap</p>") [] none none none none none])
          none none,
         Block.mk (str "/t2") (str "Text") [] [] none none none none none]
      = flatten_and_filter_blocks
          [Block.mk (str "/t2") (str "Text") [] [] none none none none none] :=
  ⟨rfl, claim_C3_amended.1 _ _ rfl⟩

/-- C4: `Page` nodes are structurally transparent — a `Page` node is never
emitted, its children are flattened recursively in place and in order; on
the spec's example tree the output is exactly the `SectionHeader` record
(text "Intro") followed by the `Text` record (text "Hello world."). -/
theorem claim_C4 :
    (∀ (b : Block) (rest : List Block), b.block_type = str "Page" →
        flatten_and_filter_blocks (b :: rest)
          = flatten_and_filter_blocks (b.children.getD []) ++ flatten_and_filter_blocks rest)
    ∧ (∀ (bs : List Block) (b : Block), b ∈ flatten_and_filter_blocks bs →
        b.block_type ≠ str "Page")
    ∧ flatten_and_filter_blocks
        [Block.mk (str "/p/1") (str "Page") [] [] none none
          (some [Block.mk (str "/p/1/h") (str "SectionHeader") (str "<h1>Intro</h1>") []
                   none none none none none,
                 Block.mk (str "/p/1/t") (str "Text") (str "<p>Hello world.</p>") []
                   none none none none none])
          none none]
      = [Block.mk (str "/p/1/h") (str "SectionHeader") (str "<h1>Intro</h1>") (str "Intro")
           none none none none none,
         Block.mk (str "/p/1/t") (str "Text") (str "<p>Hello world.</p>") (str "Hello world.")
           none none none none none] := by
  refine ⟨flatten_page_transparent, fun bs b h => (mem_flatten_block_type bs b h).2, ?_⟩
  simp [flatten_and_filter_blocks, recordOf, extract_text_from_html, stripTags, stripAux,
    splitWhitespace, wordsAux, joinSpace, str]

/-- C4 witness: `Page` transparency applied to the example `Page` node. -/
theorem claim_C4_witness :
    (Block.mk (str "/p/1") (str "Page") [] [] none none
        (some [Block.mk (str "/p/1/h") (str "SectionHeader") (str "<h1>Intro</h1>") []
                 none none none none none])
        none none : Block).block_type = str "Page"
    ∧ flatten_and_filter_blocks
        [Block.mk (str "/p/1") (str "Page") [] [] none none
          (some [Block.mk (str "/p/1/h") (str "SectionHeader") (str "<h1>Intro</h1>") []
                   none none none none none])
          none none]
      = flatten_and_filter_blocks
          ((Block.mk (str "/p/1") (str "Page") [] [] none none
              (some [Block.mk (str "/p/1/h") (str "SectionHeader") (str "<h1>Intro</h1>") []
                       none none none none none])
              none none : Block).children.getD [])
        ++ flatten_and_filter_blocks [] :=
  ⟨rfl, claim_C4.1 _ [] rfl⟩

/-! ## Lemmas about the batch orchestrator -/

theorem pdfLoop_congr (od : FPath) (cd : FPath → Except Str Unit)
    (pp : FPath → FPath → Except Str Unit) (cin : FPath) (excl : FPath → Bool)
    (en : Except Str FPath) (L L2 : List (Except Str FPath))
    (h : pdfLoop od cd pp cin excl L = pdfLoop od cd pp cin excl L2) :
    pdfLoop od cd pp cin excl (en :: L) = pdfLoop od cd pp cin excl (en :: L2) := by
  cases en with
  | error e => rw [pdfLoop_cons_err_eq, pdfLoop_cons_err_eq, h]
  | ok path => rw [pdfLoop_cons_ok_eq, pdfLoop_cons_ok_eq, h]

theorem jsonLoop_congr (od : FPath) (cd : FPath → Except Str Unit)
    (pj : FPath → FPath → Except Str Unit) (cin : FPath) (excl : FPath → Bool)
    (en : Except Str FPath) (L L2 : List (Except Str FPath))
    (h : jsonLoop od cd pj cin excl L = jsonLoop od cd pj cin excl L2) :
    jsonLoop od cd pj cin excl (en :: L) = jsonLoop od cd pj cin excl (en :: L2) := by
  cases en with
  | error e => rw [jsonLoop_cons_err_eq, jsonLoop_cons_err_eq, h]
  | ok path => rw [jsonLoop_cons_ok_eq, jsonLoop_cons_ok_eq, h]

theorem allLoop_congr (isDir excl : FPath → Bool)
    (en : Except Str FPath) (L L2 : List (Except Str FPath))
    (h : allLoop isDir excl L = allLoop isDir excl L2) :
    allLoop isDir excl (en :: L) = allLoop isDir excl (en :: L2) := by
  cases en with
  | error e => rw [allLoop_cons_err_eq, allLoop_cons_err_eq, h]
  | ok path => rw [allLoop_cons_ok_eq, allLoop_cons_ok_eq, h]

theorem filter_cons_self (path : FPath) (rest : List (Except Str FPath)) :
    (Except.ok path :: rest).filter (fun en => decide (en ≠ Except.ok path))
      = rest.filter (fun en => decide (en ≠ Except.ok path)) := by
  simp [List.filter]

theorem filter_cons_other (path : FPath) (en : Except Str FPath)
    (rest : List (Except Str FPath)) (hne : en ≠ Except.ok path) :
    (en :: rest).filter (fun x => decide (x ≠ Except.ok path))
      = en :: rest.filter (fun x => decide (x ≠ Except.ok path)) := by
  simp [List.filter, hne]

/-- An excluded path's entries contribute nothing to the pdf loop. -/
theorem pdfLoop_skip_excluded (od : FPath) (cd : FPath → Except Str Unit)
    (pp : FPath → FPath → Except Str Unit) (cin : FPath) (excl : FPath → Bool)
    (path : FPath) (hex : excl path = true) (entries : List (Except Str FPath)) :
    pdfLoop od cd pp cin excl (entries.filter (fun en => decide (en ≠ Except.ok path)))
      = pdfLoop od cd pp cin excl entries := by
  induction entries with
  | nil => rfl
  | cons en rest ih =>
    by_cases he : en = Except.ok path
    · subst he
      rw [filter_cons_self, ih, pdfLoop_cons_ok_eq, if_pos hex]
    · rw [filter_cons_other path en rest he]
      exact pdfLoop_congr od cd pp cin excl en _ _ ih

theorem jsonLoop_skip_excluded (od : FPath) (cd : FPath → Except Str Unit)
    (pj : FPath → FPath → Except Str Unit) (cin : FPath) (excl : FPath → Bool)
    (path : FPath) (hex : excl path = true) (entries : List (Except Str FPath)) :
    jsonLoop od cd pj cin excl (entries.filter (fun en => decide (en ≠ Except.ok path)))
      = jsonLoop od cd pj cin excl entries := by
  induction entries with
  | nil => rfl
  | cons en rest ih =>
    by_cases he : en = Except.ok path
    · subst he
      rw [filter_cons_self, ih, jsonLoop_cons_ok_eq, if_pos hex]
    · rw [filter_cons_other path en rest he]
      exact jsonLoop_congr od cd pj cin excl en _ _ ih

/-- A path whose string form contains `_processed` contributes nothing to
the json loop, excluded or not. -/
theorem jsonLoop_skip_processed (od : FPath) (cd : FPath → Except Str Unit)
    (pj : FPath → FPath → Except Str Unit) (cin : FPath) (excl : FPath → Bool)
    (path : FPath) (hproc : strContains (pathStr path) (str "_processed") = true)
    (entries : List (Except Str FPath)) :
    jsonLoop od cd pj cin excl (entries.filter (fun en => decide (en ≠ Except.ok path)))
      = jsonLoop od cd pj cin excl entries := by
  induction entries with
  | nil => rfl
  | cons en rest ih =>
    by_cases he : en = Except.ok path
    · subst he
      rw [filter_cons_self, ih, jsonLoop_cons_ok_eq]
      by_cases hex : excl path = true
      · rw [if_pos hex]
      · rw [if_neg hex, if_pos hproc]
    · rw [filter_cons_other path en rest he]
      exact jsonLoop_congr od cd pj cin excl en _ _ ih

theorem allLoop_skip_excluded (isDir excl : FPath → Bool) (path : FPath)
    (hex : excl path = true) (entries : List (Except Str FPath)) :
    allLoop isDir excl (entries.filter (fun en => decide (en ≠ Except.ok path)))
      = allLoop isDir excl entries := by
  induction entries with
  | nil => rfl
  | cons en rest ih =>
    by_cases he : en = Except.ok path
    · subst he
      rw [filter_cons_self, ih, allLoop_cons_ok_eq]
      by_cases hdir : isDir path = true
      · rw [if_pos hdir]
      · rw [if_neg hdir, if_pos hex]
    · rw [filter_cons_other path en rest he]
      exact allLoop_congr isDir excl en _ _ ih

theorem allLoop_skip_processed (isDir excl : FPath → Bool) (path : FPath)
    (hproc : strContains (pathStr path) (str "_processed") = true)
    (entries : List (Except Str FPath)) :
    allLoop isDir excl (entries.filter (fun en => decide (en ≠ Except.ok path)))
      = allLoop isDir excl entries := by
  induction entries with
  | nil => rfl
  | cons en rest ih =>
    by_cases he : en = Except.ok path
    · subst he
      rw [filter_cons_self, ih, allLoop_cons_ok_eq]
      by_cases hdir : isDir path = true
      · rw [if_pos hdir]
      · rw [if_neg hdir]
        by_cases hex : excl path = true
        · rw [if_pos hex]
        · rw [if_neg hex]
          by_cases hext : (match pathExtension path with
              | some e => decide (e = str "pdf") || decide (e = str "json")
              | none => false) = true
          · rw [if_pos hext]
          · rw [if_neg hext, if_pos hproc]
    · rw [filter_cons_other path en rest he]
      exact allLoop_congr isDir excl en _ _ ih

/-- With `create_dir_all` succeeding everywhere, the pdf loop never
propagates an error: per-file processor failures are recorded, not
raised. -/
theorem pdfLoop_ne_error (od : FPath) (cd : FPath → Except Str Unit)
    (pp : FPath → FPath → Except Str Unit) (cin : FPath) (excl : FPath → Bool)
    (hcd : ∀ p, cd p = Except.ok ()) (entries : List (Except Str FPath)) :
    ∀ e, pdfLoop od cd pp cin excl entries ≠ Except.error e := by
  induction entries with
  | nil =>
    intro e h
    rw [show pdfLoop od cd pp cin excl [] = Except.ok ([], []) from rfl] at h
    exact Except.noConfusion h
  | cons en rest ih =>
    intro e h
    cases en with
    | error msg =>
      rw [pdfLoop_cons_err_eq] at h
      cases hrec : pdfLoop od cd pp cin excl rest with
      | error e2 => exact ih e2 hrec
      | ok r =>
        obtain ⟨a, u⟩ := r
        rw [hrec] at h
        exact Except.noConfusion h
    | ok path =>
      rw [pdfLoop_cons_ok_eq] at h
      by_cases hex : excl path = true
      · rw [if_pos hex] at h
        exact ih e h
      · rw [if_neg hex] at h
        cases hsp : stripPrefixComponents cin path with
        | none =>
          simp only [hsp] at h
          exact ih e h
        | some rel =>
          simp only [hsp] at h
          have hdir : (match parentOpt (od ++ rel) with
                       | some parent => cd parent
                       | none => Except.ok ()) = Except.ok () := by
            cases parentOpt (od ++ rel) with
            | some parent => exact hcd parent
            | none => rfl
          simp only [hdir] at h
          cases hrec : pdfLoop od cd pp cin excl rest with
          | error e2 => exact ih e2 hrec
          | ok r =>
            obtain ⟨a, u⟩ := r
            simp only [hrec] at h
            exact Except.noConfusion h

theorem jsonLoop_ne_error (od : FPath) (cd : FPath → Except Str Unit)
    (pj : FPath → FPath → Except Str Unit) (cin : FPath) (excl : FPath → Bool)
    (hcd : ∀ p, cd p = Except.ok ()) (entries : List (Except Str FPath)) :
    ∀ e, jsonLoop od cd pj cin excl entries ≠ Except.error e := by
  induction entries with
  | nil =>
    intro e h
    rw [show jsonLoop od cd pj cin excl [] = Except.ok ([], []) from rfl] at h
    exact Except.noConfusion h
  | cons en rest ih =>
    intro e h
    cases en with
    | error msg =>
      rw [jsonLoop_cons_err_eq] at h
      cases hrec : jsonLoop od cd pj cin excl rest with
      | error e2 => exact ih e2 hrec
      | ok r =>
        obtain ⟨a, u⟩ := r
        rw [hrec] at h
        exact Except.noConfusion h
    | ok path =>
      rw [jsonLoop_cons_ok_eq] at h
      by_cases hex : excl path = true
      · rw [if_pos hex] at h
        exact ih e h
      · rw [if_neg hex] at h
        by_cases hproc : strContains (pathStr path) (str "_processed") = true
        · rw [if_pos hproc] at h
          exact ih e h
        · rw [if_neg hproc] at h
          cases hsp : stripPrefixComponents cin path with
          | none =>
            simp only [hsp] at h
            exact ih e h
          | some rel =>
            simp only [hsp] at h
            have hdir : (match parentOpt (od ++ rel) with
                         | some parent => cd parent
                         | none => Except.ok ()) = Except.ok () := by
              cases parentOpt (od ++ rel) with
              | some parent => exact hcd parent
              | none => rfl
            simp only [hdir] at h
            cases hrec : jsonLoop od cd pj cin excl rest with
            | error e2 => exact ih e2 hrec
            | ok r =>
              obtain ⟨a, u⟩ := r
              simp only [hrec] at h
              exact Except.noConfusion h

theorem process_eq_of_canon (env : BatchEnv) (cin : FPath)
    (hcin : env.canonInputDir = some cin) :
    process_pdf_directory_with_structure env
      = match pdfLoop env.outputDir env.createDirAll env.processPdf cin
            (is_excluded_path env.canon (cin ++ [str "target"]) (cin ++ [str ".git"]))
            env.pdfEntries with
        | Except.error e => Except.error e
        | Except.ok (aPdf, uPdf) =>
          match jsonLoop env.outputDir env.createDirAll env.processJson cin
              (is_excluded_path env.canon (cin ++ [str "target"]) (cin ++ [str ".git"]))
              env.jsonEntries with
          | Except.error e => Except.error e
          | Except.ok (aJson, uJson) =>
            Except.ok (aPdf ++ aJson,
              uPdf ++ uJson
                ++ allLoop env.isDir
                    (is_excluded_path env.canon (cin ++ [str "target"]) (cin ++ [str ".git"]))
                    env.allEntries) := by
  unfold process_pdf_directory_with_structure
  rw [hcin]

theorem process_eq_of_canon_none (env : BatchEnv) (hcin : env.canonInputDir = none) :
    process_pdf_directory_with_structure env = Except.error (str "canonicalize failed") := by
  unfold process_pdf_directory_with_structure
  rw [hcin]

/-! ## Claim C5: failure isolation in batch mode -/

/-- C5, counterexample: a failure to create the destination's parent
directories in the batch loop is NOT converted into an Unprocessed-File
Record — it aborts the whole batch via `?` (src/main.rs line 296), even
though the input root canonicalizes fine. -/
theorem claim_C5_counterexample :
    process_pdf_directory_with_structure
      ⟨[str "out"], some [str "root"], fun p => some p,
       [Except.ok [str "root", str "a.pdf"]], [], [],
       fun _ => false, fun _ => Except.error (str "disk full"),
       fun _ _ => Except.ok (), fun _ _ => Except.ok ()⟩
      = Except.error (str "disk full") := by rfl

/-- C5 (amended): when the input root canonicalizes and every
`create_dir_all` call succeeds, the batch never aborts regardless of the
outcomes of the per-file processors: a per-file failure is caught,
recorded as an Unprocessed-File Record, and processing continues (second
conjunct: a batch of two JSON files in which the first fails to parse
still processes the second and records exactly one failure); but a failure
of the loop-level `create_dir_all` (or canonicalization of the root)
aborts the batch with an error (see the counterexample). -/
theorem claim_C5_amended :
    (∀ (env : BatchEnv) (cin : FPath), env.canonInputDir = some cin →
        (∀ p, env.createDirAll p = Except.ok ()) →
        (process_pdf_directory_with_structure env).isOk = true)
    ∧ process_pdf_directory_with_structure
        ⟨[str "out"], some [str "root"], fun p => some p, [],
         [Except.ok [str "root", str "a.json"], Except.ok [str "root", str "b.json"]], [],
         fun _ => false, fun _ => Except.ok (), fun _ _ => Except.ok (),
         fun p _ => if p = [str "root", str "a.json"]
                    then Except.error (str "Invalid JSON schema") else Except.ok ()⟩
      = Except.ok
          ([BatchAction.createdDirs [str "out"],
            BatchAction.processedJson [str "root", str "a.json"] [str "out", str "a.json"],
            BatchAction.createdDirs [str "out"],
            BatchAction.processedJson [str "root", str "b.json"] [str "out", str "b.json"]],
           [⟨str "/root/a.json", str "Invalid JSON schema"⟩]) := by
  constructor
  · intro env cin hcin hcd
    rw [process_eq_of_canon env cin hcin]
    cases hp : pdfLoop env.outputDir env.createDirAll env.processPdf cin
        (is_excluded_path env.canon (cin ++ [str "target"]) (cin ++ [str ".git"]))
        env.pdfEntries with
    | error e =>
      exact absurd hp (pdfLoop_ne_error _ _ _ _ _ hcd env.pdfEntries e)
    | ok rp =>
      obtain ⟨aPdf, uPdf⟩ := rp
      cases hj : jsonLoop env.outputDir env.createDirAll env.processJson cin
          (is_excluded_path env.canon (cin ++ [str "target"]) (cin ++ [str ".git"]))
          env.jsonEntries with
      | error e =>
        exact absurd hj (jsonLoop_ne_error _ _ _ _ _ hcd env.jsonEntries e)
      | ok rj =>
        obtain ⟨aJson, uJson⟩ := rj
        rfl
  · rfl

/-- C5 witness: the no-abort statement applied to the two-file scenario
environment. -/
theorem claim_C5_witness :
    (⟨[str "out"], some [str "root"], fun p => some p, [],
      [Except.ok [str "root", str "a.json"], Except.ok [str "root", str "b.json"]], [],
      fun _ => false, fun _ => Except.ok (), fun _ _ => Except.ok (),
      fun p _ => if p = [str "root", str "a.json"]
                 then Except.error (str "Invalid JSON schema") else Except.ok ()⟩
        : BatchEnv).canonInputDir = some [str "root"]
    ∧ (process_pdf_directory_with_structure
        ⟨[str "out"], some [str "root"], fun p => some p, [],
         [Except.ok [str "root", str "a.json"], Except.ok [str "root", str "b.json"]], [],
         fun _ => false, fun _ => Except.ok (), fun _ _ => Except.ok (),
         fun p _ => if p = [str "root", str "a.json"]
                    then Except.error (str "Invalid JSON schema") else Except.ok ()⟩).isOk
        = true :=
  ⟨rfl, claim_C5_amended.1 _ [str "root"] rfl (fun _ => rfl)⟩

/-! ## Claim C6: exclusion of target and .git subtrees -/

/-- C6, counterexample: a `.pdf` file under a nested `sub/target/`
directory (not the root's direct `target` child) is NOT skipped: its
canonicalization succeeds and `root/target` is not a component-prefix of
`root/sub/target/evil.pdf`, so the file is processed. -/
theorem claim_C6_counterexample :
    process_pdf_directory_with_structure
      ⟨[str "out"], some [str "root"], fun p => some p,
       [Except.ok [str "root", str "sub", str "target", str "evil.pdf"]], [], [],
       fun _ => false, fun _ => Except.ok (),
       fun _ _ => Except.ok (), fun _ _ => Except.ok ()⟩
      = Except.ok
          ([BatchAction.createdDirs [str "out", str "sub", str "target"],
            BatchAction.processedPdf [str "root", str "sub", str "target", str "evil.pdf"]
              [str "out", str "sub", str "target", str "evil.pdf"]],
           []) := by rfl

/-- C6 (amended): a path that the orchestrator's `is_excluded_path` deems
excluded — its canonicalization is component-prefixed by the root's direct
`target` or `.git` child, or (only when canonicalization fails) its string
form contains `/target/` or `/.git/` — contributes nothing to the batch:
removing all its `Ok` glob entries leaves the orchestrator's entire result
unchanged (it is neither processed nor reported). Deeper `target`/`.git`
directories are not excluded when canonicalization succeeds (see the
counterexample). -/
theorem claim_C6_amended (env : BatchEnv) (cin path : FPath)
    (hcin : env.canonInputDir = some cin)
    (hex : is_excluded_path env.canon (cin ++ [str "target"]) (cin ++ [str ".git"]) path
        = true) :
    process_pdf_directory_with_structure env
      = process_pdf_directory_with_structure
          { env with
            pdfEntries := env.pdfEntries.filter (fun en => decide (en ≠ Except.ok path)),
            jsonEntries := env.jsonEntries.filter (fun en => decide (en ≠ Except.ok path)),
            allEntries := env.allEntries.filter (fun en => decide (en ≠ Except.ok path)) } := by
  rw [process_eq_of_canon env cin hcin,
    process_eq_of_canon
      { env with
        pdfEntries := env.pdfEntries.filter (fun en => decide (en ≠ Except.ok path)),
        jsonEntries := env.jsonEntries.filter (fun en => decide (en ≠ Except.ok path)),
        allEntries := env.allEntries.filter (fun en => decide (en ≠ Except.ok path)) }
      cin hcin,
    pdfLoop_skip_excluded _ _ _ _ _ path hex,
    jsonLoop_skip_excluded _ _ _ _ _ path hex,
    allLoop_skip_excluded _ _ path hex]

/-- C6 witness: a `.pdf` file directly under the root's `target` directory
is invisible to the whole batch. -/
theorem claim_C6_witness :
    is_excluded_path (fun p => some p)
        ([str "root"] ++ [str "target"]) ([str "root"] ++ [str ".git"])
        [str "root", str "target", str "x.pdf"] = true
    ∧ process_pdf_directory_with_structure
        ⟨[str "out"], some [str "root"], fun p => some p,
         [Except.ok [str "root", str "target", str "x.pdf"]], [], [],
         fun _ => false, fun _ => Except.ok (),
         fun _ _ => Except.ok (), fun _ _ => Except.ok ()⟩
      = process_pdf_directory_with_structure
          { (⟨[str "out"], some [str "root"], fun p => some p,
              [Except.ok [str "root", str "target", str "x.pdf"]], [], [],
              fun _ => false, fun _ => Except.ok (),
              fun _ _ => Except.ok (), fun _ _ => Except.ok ()⟩ : BatchEnv) with
            pdfEntries :=
              [Except.ok [str "root", str "target", str "x.pdf"]].filter
                (fun en => decide (en ≠ Except.ok [str "root", str "target", str "x.pdf"])),
            jsonEntries :=
              ([] : List (Except Str FPath)).filter
                (fun en => decide (en ≠ Except.ok [str "root", str "target", str "x.pdf"])),
            allEntries :=
              ([] : List (Except Str FPath)).filter
                (fun en => decide (en ≠ Except.ok [str "root", str "target", str "x.pdf"])) } :=
  ⟨rfl,
   claim_C6_amended _ [str "root"] [str "root", str "target", str "x.pdf"] rfl rfl⟩

/-! ## Claim C10: path-wide `_processed` substring skipping -/

/-- C10: any path whose full string form contains `_processed` anywhere —
also in an ancestor directory component — contributes nothing to the json
loop or to the "Unsupported file type" catch-all: removing its `Ok`
entries from the json and catch-all glob lists leaves the orchestrator's
result unchanged. (`.pdf` entries are not subject to this test.) -/
theorem claim_C10 (env : BatchEnv) (path : FPath)
    (hproc : strContains (pathStr path) (str "_processed") = true) :
    process_pdf_directory_with_structure env
      = process_pdf_directory_with_structure
          { env with
            jsonEntries := env.jsonEntries.filter (fun en => decide (en ≠ Except.ok path)),
            allEntries := env.allEntries.filter (fun en => decide (en ≠ Except.ok path)) } := by
  cases hcin : env.canonInputDir with
  | none =>
    rw [process_eq_of_canon_none env hcin,
      process_eq_of_canon_none
        { env with
          canonInputDir := none,
          jsonEntries := env.jsonEntries.filter (fun en => decide (en ≠ Except.ok path)),
          allEntries := env.allEntries.filter (fun en => decide (en ≠ Except.ok path)) }
        rfl]
  | some cin =>
    rw [process_eq_of_canon env cin hcin,
      process_eq_of_canon
        { env with
          canonInputDir := some cin,
          jsonEntries := env.jsonEntries.filter (fun en => decide (en ≠ Except.ok path)),
          allEntries := env.allEntries.filter (fun en => decide (en ≠ Except.ok path)) }
        cin rfl,
      jsonLoop_skip_processed _ _ _ _ _ path hproc,
      allLoop_skip_processed _ _ path hproc]

/-- C10 witness: a `.json` file inside a `docs_processed` ancestor
directory (the file name itself has no `_processed`) is skipped silently,
and so is a `.txt` file under the same directory (no "Unsupported file
type" record). -/
theorem claim_C10_witness :
    strContains (pathStr [str "root", str "docs_processed", str "f.json"])
        (str "_processed") = true
    ∧ process_pdf_directory_with_structure
        ⟨[str "out"], some [str "root"], fun p => some p, [],
         [Except.ok [str "root", str "docs_processed", str "f.json"]], [],
         fun _ => false, fun _ => Except.ok (),
         fun _ _ => Except.ok (), fun _ _ => Except.ok ()⟩
      = process_pdf_directory_with_structure
          { (⟨[str "out"], some [str "root"], fun p => some p, [],
              [Except.ok [str "root", str "docs_processed", str "f.json"]], [],
              fun _ => false, fun _ => Except.ok (),
              fun _ _ => Except.ok (), fun _ _ => Except.ok ()⟩ : BatchEnv) with
            jsonEntries :=
              [Except.ok [str "root", str "docs_processed", str "f.json"]].filter
                (fun en => decide
                  (en ≠ Except.ok [str "root", str "docs_processed", str "f.json"])),
            allEntries :=
              ([] : List (Except Str FPath)).filter
                (fun en => decide
                  (en ≠ Except.ok [str "root", str "docs_processed", str "f.json"])) } :=
  ⟨rfl, claim_C10 _ [str "root", str "docs_processed", str "f.json"] rfl⟩
